import Mathlib

/-!
# react-ferrier: a shallow embedding of the JSON transport and loader state machine

This file embeds the data model and operations of the `react-ferrier`
repository (the `JsonApi` transport in `json-api.ts`, the cancellable
promise wrapper, the `urlFor`-based request router glue, and the
`LoaderHOC` loading state machine / `deepCompare` helper in
`loader-hoc.tsx` and `helpers.ts`) and proves properties of them.

JavaScript runtime values are modelled by the inductive type `JsVal`.
Numbers are modelled as integers (`Int`), with `NaN` as a separate
constructor; no claim involves non-integer arithmetic.  `undefined` is a
value of its own, as in JavaScript.  File/Blob objects are modelled by
their metadata (name/size/type), which is all the repository ever reads
from them.  A JavaScript object is a list of (key, value) fields in
insertion order; a JavaScript array is a list of elements plus a list of
extra named own properties (normally empty; property assignment on an
array can populate it).
-/

/-- A JavaScript runtime value. -/
inductive JsVal where
  | undef : JsVal
  | null : JsVal
  | bool (b : Bool) : JsVal
  | nan : JsVal
  | num (n : Int) : JsVal
  | str (s : String) : JsVal
  | arr (elems : List JsVal) (props : List (String × JsVal)) : JsVal
  | obj (fields : List (String × JsVal)) : JsVal
  | file (name : String) (size : Int) (ftype : String) : JsVal
  | blob (size : Int) (ftype : String) : JsVal

/-- JavaScript `typeof v == 'number'`. -/
def typeofIsNumber : JsVal → Bool
  | .nan => true
  | .num _ => true
  | _ => false

/-- JavaScript `typeof v === 'object'` (true for `null`, arrays, plain
objects, `File`s and `Blob`s). -/
def typeofIsObject : JsVal → Bool
  | .null => true
  | .arr _ _ => true
  | .obj _ => true
  | .file _ _ _ => true
  | .blob _ _ => true
  | _ => false

/-- Is this value the literal `null`? -/
def isNullJs : JsVal → Bool
  | .null => true
  | _ => false

/-- The coercing global `isNaN`; only applied to numbers in this code base. -/
def jsIsNaN : JsVal → Bool
  | .nan => true
  | _ => false

/-- JavaScript truthiness: `undefined`, `null`, `false`, `0`, `NaN` and the
empty string are falsy, everything else (including `[]` and `{}`) truthy. -/
def jsTruthy : JsVal → Bool
  | .undef => false
  | .null => false
  | .bool b => b
  | .nan => false
  | .num n => !(n == 0)
  | .str s => !(s == "")
  | _ => true

/-- JavaScript strict equality `===` on the values this code base compares.
`NaN === x` is false for every `x` (including `NaN`); primitives compare by
value; values of different types compare unequal.  Two non-null objects
compare by reference in JavaScript; every call site in the repository
guards this case away (see `deepCompare`), so it is modelled as `false`,
which is what distinct object references give. -/
def strictEq : JsVal → JsVal → Bool
  | .undef, .undef => true
  | .null, .null => true
  | .nan, _ => false
  | _, .nan => false
  | .bool a, .bool b => a == b
  | .num a, .num b => a == b
  | .str a, .str b => a == b
  | _, _ => false

/-- First-match association-list lookup, the JS object property lookup. -/
def lookupField : List (String × JsVal) → String → Option JsVal
  | [], _ => none
  | (k0, v0) :: rest, k => if k0 = k then some v0 else lookupField rest k

/-- JS property assignment on an object's field list: an existing key keeps
its position and gets the new value, a new key is appended. -/
def setField : List (String × JsVal) → String → JsVal → List (String × JsVal)
  | [], k, v => [(k, v)]
  | (k0, v0) :: rest, k, v =>
      if k0 = k then (k0, v) :: rest else (k0, v0) :: setField rest k v

/-- The index/value own properties of a JS array: keys are the decimal
index strings "0", "1", ... . -/
def indexFields : List JsVal → Nat → List (String × JsVal)
  | [], _ => []
  | x :: xs, i => (toString i, x) :: indexFields xs (i + 1)

/-- The own enumerable properties of a value, in enumeration order: what
`Object.keys` / `for ... in` (filtered by `hasOwnProperty`) / object rest
spread see.  Strings enumerate their characters by index; `File`s and
`Blob`s have no own enumerable properties (their metadata lives on the
prototype); primitives and `null` have none. -/
def ownFields : JsVal → List (String × JsVal)
  | .obj fs => fs
  | .arr xs ps => indexFields xs 0 ++ ps
  | .str s => indexFields (s.toList.map (fun c => .str (String.singleton c))) 0
  | _ => []

/-- The non-enumerable prototype properties the repository reads from
file-like objects: `name` on `File`, `size`/`type` on `Blob` (a `File` is
also a `Blob`). -/
def specialProps : JsVal → List (String × JsVal)
  | .file n sz t => [("name", .str n), ("size", .num sz), ("type", .str t)]
  | .blob sz t => [("size", .num sz), ("type", .str t)]
  | _ => []

/-- JS property read `v[k]`: an absent property reads as `undefined`.
(Reading a property of `null`/`undefined` throws in JavaScript; call sites
in the embedding model that throw explicitly and never rely on this
function there.) -/
def getProp (v : JsVal) (k : String) : JsVal :=
  (lookupField (ownFields v ++ specialProps v) k).getD (.undef)

/-- The own enumerable key list of a value. -/
def ownKeys (v : JsVal) : List String :=
  (ownFields v).map Prod.fst

mutual

/-- Structural size of a value (an upper bound on nesting depth), used as
fuel for the fuelled recursions below.  File/blob values get size 2 so
that their (size-1) metadata properties are strictly smaller. -/
def jsSize : JsVal → Nat
  | .arr xs ps => 1 + jsSizeList xs + jsSizeFields ps
  | .obj fs => 1 + jsSizeFields fs
  | .file _ _ _ => 2
  | .blob _ _ => 2
  | _ => 1

/-- Structural size of a list of values. -/
def jsSizeList : List JsVal → Nat
  | [] => 0
  | x :: xs => 1 + jsSize x + jsSizeList xs

/-- Structural size of a field list. -/
def jsSizeFields : List (String × JsVal) → Nat
  | [] => 0
  | kv :: rest => 1 + jsSize kv.2 + jsSizeFields rest

end

/-! ## Platform functions

`JSON.parse`, `JSON.stringify`, string coercion and `encodeURIComponent`
are platform (browser) functions called by the repository, modelled here on
the fragment of values the repository exchanges: JSON texts with integer
numbers and strings using only the basic escapes.  Texts outside this
fragment (fractional/exponent numbers, `\u` escapes) are outside the model:
the parser rejects them.  The recursive functions take explicit fuel (any
bound on the nesting depth, e.g. the text length or the value size) so that
they are structurally recursive and kernel-computable. -/

/-- JSON insignificant whitespace. -/
def skipWs : List Char → List Char
  | c :: rest =>
      if c = ' ' ∨ c = '\t' ∨ c = '\n' ∨ c = '\r' then skipWs rest else c :: rest
  | [] => []

/-- Parse a JSON string body (after the opening quote), with the basic
escapes. Raw control characters and unsupported escapes are rejected. -/
def parseStringBody : List Char → List Char → Option (String × List Char)
  | acc, '"' :: rest => some (String.mk acc.reverse, rest)
  | acc, '\\' :: e :: rest =>
      if e = '"' then parseStringBody ('"' :: acc) rest
      else if e = '\\' then parseStringBody ('\\' :: acc) rest
      else if e = '/' then parseStringBody ('/' :: acc) rest
      else if e = 'b' then parseStringBody ('\x08' :: acc) rest
      else if e = 'f' then parseStringBody ('\x0c' :: acc) rest
      else if e = 'n' then parseStringBody ('\n' :: acc) rest
      else if e = 'r' then parseStringBody ('\r' :: acc) rest
      else if e = 't' then parseStringBody ('\t' :: acc) rest
      else none
  | acc, c :: rest => if c.toNat < 32 then none else parseStringBody (c :: acc) rest
  | _, [] => none

/-- Parse a JSON integer literal (optional minus, no leading zeros). -/
def parseIntLit (cs : List Char) : Option (Int × List Char) :=
  let p := match cs with
    | '-' :: rest => (true, rest)
    | _ => (false, cs)
  let ds := p.2.takeWhile Char.isDigit
  let rest := p.2.dropWhile Char.isDigit
  if ds.isEmpty then none
  else if ds.length > 1 ∧ ds.headD '0' = '0' then none
  else
    let n : Nat := ds.foldl (fun a c => a * 10 + (c.toNat - 48)) 0
    some (if p.1 then -(n : Int) else (n : Int), rest)

mutual

/-- Parse one JSON value. -/
def parseValueF : Nat → List Char → Option (JsVal × List Char)
  | 0, _ => none
  | fuel + 1, cs =>
    match skipWs cs with
    | 'n' :: 'u' :: 'l' :: 'l' :: rest => some (.null, rest)
    | 't' :: 'r' :: 'u' :: 'e' :: rest => some (.bool true, rest)
    | 'f' :: 'a' :: 'l' :: 's' :: 'e' :: rest => some (.bool false, rest)
    | '"' :: rest =>
        match parseStringBody [] rest with
        | some (s, rest1) => some (.str s, rest1)
        | none => none
    | '[' :: rest =>
        (match skipWs rest with
        | ']' :: rest1 => some (.arr [] [], rest1)
        | other => match parseElementsF fuel [] other with
          | some (xs, rest1) => some (.arr xs [], rest1)
          | none => none)
    | '\x7b' :: rest =>
        (match skipWs rest with
        | '\x7d' :: rest1 => some (.obj [], rest1)
        | other => match parseMembersF fuel [] other with
          | some (fs, rest1) => some (.obj fs, rest1)
          | none => none)
    | other =>
        match parseIntLit other with
        | some (n, rest) => some (.num n, rest)
        | none => none

/-- Parse the elements of a non-empty JSON array, from the first element. -/
def parseElementsF : Nat → List JsVal → List Char → Option (List JsVal × List Char)
  | 0, _, _ => none
  | fuel + 1, acc, cs =>
    match parseValueF fuel cs with
    | some (v, rest) =>
        (match skipWs rest with
        | ',' :: rest1 => parseElementsF fuel (v :: acc) rest1
        | ']' :: rest1 => some ((v :: acc).reverse, rest1)
        | _ => none)
    | none => none

/-- Parse the members of a non-empty JSON object, from the first key.
A duplicate key keeps its first position and takes the last value, as in
`JSON.parse`. -/
def parseMembersF : Nat → List (String × JsVal) → List Char → Option (List (String × JsVal) × List Char)
  | 0, _, _ => none
  | fuel + 1, acc, cs =>
    match skipWs cs with
    | '"' :: rest =>
        (match parseStringBody [] rest with
        | some (k, rest1) =>
            (match skipWs rest1 with
            | ':' :: rest2 =>
                (match parseValueF fuel rest2 with
                | some (v, rest3) =>
                    (match skipWs rest3 with
                    | ',' :: rest4 => parseMembersF fuel (setField acc k v) rest4
                    | '\x7d' :: rest4 => some (setField acc k v, rest4)
                    | _ => none)
                | none => none)
            | _ => none)
        | none => none)
    | _ => none

end

/-- The platform `JSON.parse`, on the model's JSON fragment: `none` means
the parse throws a `SyntaxError`. -/
def jsonParse (s : String) : Option JsVal :=
  match parseValueF (2 * s.length + 2) s.toList with
  | some (v, rest) => if (skipWs rest).isEmpty then some v else none
  | none => none

/-- Quote a string as a JSON string literal (basic escapes only). -/
def jsonQuote (s : String) : String :=
  "\"" ++ (s.toList.foldl (fun a c =>
      a ++ (if c = '"' then "\\\"" else if c = '\\' then "\\\\" else String.singleton c)) "") ++ "\""

/-- The platform `JSON.stringify` (fuelled); `none` is JavaScript's
`undefined` result. `NaN` serializes as `null`; `undefined`-valued object
fields are omitted; `undefined` array elements serialize as `null`. -/
def jsonStringifyF : Nat → JsVal → Option String
  | _, .undef => none
  | _, .null => some "null"
  | _, .bool b => some (if b then "true" else "false")
  | _, .nan => some "null"
  | _, .num n => some (toString n)
  | _, .str s => some (jsonQuote s)
  | _, .file _ _ _ => some "\x7b\x7d"
  | _, .blob _ _ => some "\x7b\x7d"
  | 0, .arr _ _ => none
  | 0, .obj _ => none
  | fuel + 1, .arr xs _ =>
      some ("[" ++ String.intercalate "," (xs.map (fun x => (jsonStringifyF fuel x).getD "null")) ++ "]")
  | fuel + 1, .obj fs =>
      some ("\x7b" ++ String.intercalate ","
        (fs.filterMap (fun kv => (jsonStringifyF fuel kv.2).map (fun sv => jsonQuote kv.1 ++ ":" ++ sv)))
        ++ "\x7d")

/-- The platform `JSON.stringify`. -/
def jsonStringify (v : JsVal) : Option String := jsonStringifyF (jsSize v) v

/-- JavaScript `String(v)` coercion (fuelled): arrays join their elements
with commas (null/undefined elements become empty), objects give
"[object Object]". -/
def jsToStringF : Nat → JsVal → String
  | _, .undef => "undefined"
  | _, .null => "null"
  | _, .bool b => if b then "true" else "false"
  | _, .nan => "NaN"
  | _, .num n => toString n
  | _, .str s => s
  | 0, .arr _ _ => ""
  | fuel + 1, .arr xs _ =>
      String.intercalate "," (xs.map (fun x =>
        match x with
        | .null => ""
        | .undef => ""
        | y => jsToStringF fuel y))
  | _, .obj _ => "[object Object]"
  | _, .file _ _ _ => "[object File]"
  | _, .blob _ _ => "[object Blob]"

/-- JavaScript `String(v)` coercion. -/
def jsToString (v : JsVal) : String := jsToStringF (jsSize v) v

/-- Uppercase hex digit. -/
def hexDigitChar (n : Nat) : Char :=
  if n < 10 then Char.ofNat (48 + n) else Char.ofNat (55 + n)

/-- The UTF-8 bytes of a character. -/
def utf8Bytes (c : Char) : List Nat :=
  let n := c.toNat
  if n < 0x80 then [n]
  else if n < 0x800 then [0xC0 + n / 64, 0x80 + n % 64]
  else if n < 0x10000 then [0xE0 + n / 4096, 0x80 + (n / 64) % 64, 0x80 + n % 64]
  else [0xF0 + n / 262144, 0x80 + (n / 4096) % 64, 0x80 + (n / 64) % 64, 0x80 + n % 64]

/-- One percent-encoded byte, e.g. `%2F`. -/
def percentByte (b : Nat) : String :=
  String.mk ['%', hexDigitChar (b / 16), hexDigitChar (b % 16)]

/-- The platform `encodeURIComponent`: ASCII alphanumerics and
`- _ . ! ~ * ' ( )` pass through, everything else is percent-encoded
byte-wise in UTF-8. -/
def encodeURIComponent (s : String) : String :=
  String.join (s.toList.map (fun c =>
    if c.isAlphanum ∨ c ∈ ['-', '_', '.', '!', '~', '*', Char.ofNat 39, '(', ')']
    then String.singleton c
    else String.join ((utf8Bytes c).map percentByte)))

/-- JS property assignment `target[k] = v` as an expression statement:
`none` models a thrown `TypeError` (assignment on `null`/`undefined`).

Modelled from the spec: the repository's build configuration, which decides
whether the emitted module runs in strict mode, is not under `src/`.  The
spec states that for a non-object body "this attachment is skipped — parsed
body is returned as-is", i.e. sloppy-mode semantics, where assigning a
property on a primitive is a silent no-op (in strict mode it would throw);
assigning on `null`/`undefined` throws a `TypeError` in either mode.

This function is only applied to `JSON.parse` outputs, which never contain
file/blob values; on arrays it is only used with the non-index key
`"redirectTo"`, which lands in the array's named own properties. -/
def setPropJs : JsVal → String → JsVal → Option JsVal
  | .obj fs, k, v => some (.obj (setField fs k v))
  | .arr xs ps, k, v => some (.arr xs (setField ps k v))
  | .null, _, _ => none
  | .undef, _, _ => none
  | other, _, _ => some other

namespace Mime

/-- The constant `Mime.json.utf8` from `Mime.ts`. -/
def json.utf8 : String := "application/json;charset=utf-8"

end Mime

namespace JsonApi

/-- The request a single `send` call configures on its `XMLHttpRequest`.
`bodyArg` is the argument passed to `xhr.send(...)`; `wireBody` is the body
the platform actually transmits: per the XMLHttpRequest specification the
body is ignored (set to null) when the request method is GET or HEAD. -/
structure SendRequest where
  method : String
  url : String
  acceptHeader : String
  contentTypeHeader : String
  timeoutMs : Nat
  bodyArg : Option String
  wireBody : Option String

/-- How a completed (non-aborted, reachable) request settles the promise:
`success v` is a call of the `success` callback (promise resolution),
`failure v` a call of the `fail` callback (promise rejection). -/
inductive Outcome where
  | success (v : JsVal)
  | failure (v : JsVal)

/-- Function `serializeUri` from `json-api.ts`: own enumerable keys with
non-null, non-undefined values become `key=encodeURIComponent(value)`
pairs, joined with `&`. -/
def serializeUri (o : JsVal) : String :=
  let params := (ownFields o).foldl (fun acc kv =>
    match kv.2 with
    | .undef => acc
    | .null => acc
    | v => acc ++ [kv.1 ++ "=" ++ encodeURIComponent (jsToString v)]) []
  String.intercalate "&" params

/-- The request configuration performed by `send` in `json-api.ts`
(`xhr.open`, the two headers, the 90 s timeout, and
`xhr.send(data && JSON.stringify(data))`).  A falsy `data` is passed to
`xhr.send` unchanged: `undefined`/`null` mean "no body", other falsy
primitives are coerced to their string form by the platform. -/
def send (method : String) (url : String) (data : JsVal) : SendRequest :=
  let bodyArg : Option String :=
    if jsTruthy data then jsonStringify data
    else match data with
      | .undef => none
      | .null => none
      | d => some (jsToString d)
  { method := method
    url := url
    acceptHeader := Mime.json.utf8
    contentTypeHeader := Mime.json.utf8
    timeoutMs := 90 * 1000
    bodyArg := bodyArg
    wireBody := if method = "GET" ∨ method = "HEAD" then none else bodyArg }

/-- The `get` handler from `json-api.ts`: append `'?' + serializeUri(data)`
when `data` is truthy, then `send(GET, url, {})`. -/
def get (url : String) (data : JsVal) : SendRequest :=
  send "GET" (if jsTruthy data then url ++ "?" ++ serializeUri data else url) (.obj [])

/-- The catch branch of `doError`: `response || "Server returned with an
unexpected response"`. -/
def rawOrFallback (response : String) : JsVal :=
  if response = "" then .str "Server returned with an unexpected response" else .str response

/-- Function `doSuccess` from `json-api.ts`: parse the body; attach the Location
header as `redirectTo` when present; if parsing (or the attachment) throws,
fall back to the raw response text. -/
def doSuccess (response : String) (redirectTo : Option String) : JsVal :=
  match jsonParse response with
  | none => .str response
  | some parsed =>
    match redirectTo with
    | none => parsed
    | some L =>
      if L = "" then parsed
      else
        match setPropJs parsed "redirectTo" (.str L) with
        | some v => v
        | none => .str response

/-- Function `doError` from `json-api.ts`.  Note the `try` block also covers the
`data.error` property read: a body parsing to `null` throws there and takes
the catch branch. -/
def doError (response : String) : JsVal :=
  match jsonParse response with
  | some data =>
    match data with
    | .null => rawOrFallback response
    | _ =>
      let e := getProp data "error"
      let msg := if strictEq e (.str "") then .str "(no message provided)" else e
      if jsTruthy msg then msg else data
  | none => rawOrFallback response

/-- The `xhr.onload` handler from `send`: 2xx statuses normalize through
`doSuccess` (with the Location header when truthy), everything else
through `doError`. -/
def handleLoad (status : Nat) (locationHeader : Option String) (responseText : String) : Outcome :=
  if 200 ≤ status ∧ status < 300 then
    match locationHeader with
    | some L =>
        if L = "" then .success (doSuccess responseText none)
        else .success (doSuccess responseText (some L))
    | none => .success (doSuccess responseText none)
  else .failure (doError responseText)

end JsonApi

/-! ## The cancellable promise wrapper and the routing glue (`wrap`)

A settled promise is modelled by its outcome (`PResult`); `then`/`catch`
handlers are modelled as functions returning a `PResult`, which covers both
a handler returning a value (resolution) and a handler throwing or
returning a rejected promise (rejection).  `makeCancellablePromise`
monkey-patches `then`/`catch` so that every derived promise is wrapped with
the *same* `onCancel`; the abort handle a promise's `cancel()` forwards to
is modelled by a numeric identifier of the underlying `XMLHttpRequest`. -/

/-- A settled promise outcome. -/
inductive PResult where
  | resolved (v : JsVal)
  | rejected (e : JsVal)

/-- Native `promise.then(onFul?, onRej?)` on a settled promise: a missing
handler passes the corresponding outcome through. -/
def pthen (p : PResult) (onFul : Option (JsVal → PResult)) (onRej : Option (JsVal → PResult)) : PResult :=
  match p with
  | .resolved v =>
    match onFul with
    | some f => f v
    | none => .resolved v
  | .rejected e =>
    match onRej with
    | some g => g e
    | none => .rejected e

/-- A promise as returned by `makeCancellablePromise`: the underlying
settled outcome plus the `onCancel` installed on it (identified by the
abort handle it forwards to). -/
structure CancellablePromise where
  base : PResult
  cancel : Nat

/-- Function `makeCancellablePromise` from `json-api.ts`: the returned promise
carries `onCancel` as its `cancel`, and (via the patched `then`/`catch`)
every promise derived from it is wrapped with the same `onCancel`. -/
def makeCancellablePromise (p : PResult) (onCancel : Nat) : CancellablePromise :=
  { base := p, cancel := onCancel }

/-- The patched `promise.then`: chain on the underlying promise, then
re-wrap with the captured `onCancel`. -/
def CancellablePromise.thenFn (p : CancellablePromise) (onFul onRej : Option (JsVal → PResult)) : CancellablePromise :=
  makeCancellablePromise (pthen p.base onFul onRej) p.cancel

/-- The patched `promise.catch`: chain on the underlying promise, then
re-wrap with the captured `onCancel`. -/
def CancellablePromise.catchFn (p : CancellablePromise) (onRej : Option (JsVal → PResult)) : CancellablePromise :=
  makeCancellablePromise (pthen p.base none onRej) p.cancel

/-- One link of a caller-side composition chain. -/
inductive ChainOp where
  | thenOp (onFul onRej : Option (JsVal → PResult))
  | catchOp (onRej : Option (JsVal → PResult))

/-- Apply a chain of `then`/`catch` compositions to a cancellable promise. -/
def applyChain : CancellablePromise → List ChainOp → CancellablePromise
  | p, [] => p
  | p, .thenOp f g :: rest => applyChain (p.thenFn f g) rest
  | p, .catchOp g :: rest => applyChain (p.catchFn g) rest

/-- Function `wrap` from `json-api.ts` without a `routeWith` option: the future of
the request's outcome, wrapped with the abort handle of its `xhr`. -/
def wrap (xhrId : Nat) (outcome : PResult) : CancellablePromise :=
  makeCancellablePromise outcome xhrId

/-- A history location: `react-ferrier` only reads and writes `pathname`
and `state` of the location it spreads. -/
structure HistoryLoc where
  pathname : String
  state : JsVal

/-- A navigation history: the current entry and the back stack. -/
structure History where
  current : HistoryLoc
  back : List HistoryLoc

/-- Operation `history.push`: a new current entry, the old one goes on the stack. -/
def History.push (h : History) (l : HistoryLoc) : History :=
  { current := l, back := h.current :: h.back }

/-- Operation `history.replace`: replace the current entry in place. -/
def History.replace (h : History) (l : HistoryLoc) : History :=
  { current := l, back := h.back }

/-- Object rest destructuring `let {message, ...redirect} = resp` minus the
named field: the own enumerable fields except `k`. -/
def restOmit (v : JsVal) (k : String) : List (String × JsVal) :=
  (ownFields v).filter (fun kv => kv.1 ≠ k)

/-- The handler pair `wrap` installs when `options.routeWith` is given,
applied to the settled transport outcome.  `urlFor` is the injectable URL
interpreter (`setUrlInterpreter` makes it configurable), passed here as a
parameter.  On resolution with `null`/`undefined` the destructuring
`{message, ...redirect}` throws a `TypeError` (its message text is
platform-defined), rejecting the chained promise; otherwise each handler
returns `undefined`, so the chained promise resolves with `undefined`. -/
def routedThen (urlFor : JsVal → String) (h : History) : PResult → History × PResult
  | .resolved resp =>
    match resp with
    | .null => (h, .rejected (.str "TypeError"))
    | .undef => (h, .rejected (.str "TypeError"))
    | _ =>
      let message := getProp resp "message"
      let redirect := restOmit resp "message"
      if redirect.length > 0 then
        (h.push { pathname := urlFor (.obj redirect), state := .obj [("serverMessage", message)] },
         .resolved .undef)
      else
        (h.replace { pathname := h.current.pathname, state := .obj [("serverMessage", message)] },
         .resolved .undef)
  | .rejected err =>
    (h.replace { pathname := h.current.pathname, state := .obj [("errorMessage", err)] },
     .resolved .undef)

/-- Function `wrap` from `json-api.ts` with a `routeWith` history: the promise is
replaced by `promise.then(successHandler, errorHandler)` before being made
cancellable, so the returned future is the *chained* one. -/
def wrapRouted (xhrId : Nat) (urlFor : JsVal → String) (h : History) (outcome : PResult) :
    History × CancellablePromise :=
  let hr := routedThen urlFor h outcome
  (hr.1, makeCancellablePromise hr.2 xhrId)

/-! ## The `LoaderHOC` state machine (`loader-hoc.tsx`) -/

/-- The per-`LoaderHOC` options this model tracks (`renderOnEmptyResult`
and the data post-processor; the render overrides are kept abstract by the
`Rendered` type below). -/
structure LoaderOptions where
  renderOnEmptyResult : Bool
  serverAdapter : JsVal → JsVal

/-- The component state `InnerState = { data?, errorStatus? }`; an unset
field is `undefined` (the initial state is `{}`). -/
structure InnerState where
  data : JsVal
  errorStatus : JsVal

/-- What one `render()` call of the loader component produces:
`errorView text` is `renderError(text)`, `loaderView` is `renderLoader()`,
and `displayView data` is the wrapped `Display` element with the given
`data` prop (the query params and passthrough props it also receives are
not tracked). -/
inductive Rendered where
  | errorView (text : JsVal)
  | loaderView : Rendered
  | displayView (data : JsVal)

/-- The check `Array.isArray(data) && data.length == 0`. -/
def isEmptyArrayJs : JsVal → Bool
  | .arr xs _ => xs.isEmpty
  | _ => false

/-- Method `render()` from `loader-hoc.tsx`: truthy data renders the display
component, unless it is an empty array and `renderOnEmptyResult` is not
set, which renders `renderError('No results')`; otherwise a truthy
`errorStatus` renders the error view, and anything else the loader. -/
def render (opts : LoaderOptions) (s : InnerState) : Rendered :=
  if jsTruthy s.data then
    if isEmptyArrayJs s.data && !opts.renderOnEmptyResult then
      .errorView (.str "No results")
    else
      .displayView s.data
  else if jsTruthy s.errorStatus then
    .errorView s.errorStatus
  else
    .loaderView

/-- The success handler installed by `load()`:
`this.setState({data: serverAdapter ? serverAdapter(response) : response})`
(the adapter is always defined, having been defaulted). -/
def applySuccess (opts : LoaderOptions) (s : InnerState) (response : JsVal) : InnerState :=
  { s with data := opts.serverAdapter response }

/-- The observable effects of `load()`'s failure handler together with the
`promise.then(this.props.onLoad)` settle hookup. -/
structure FailureEffects where
  state : InnerState
  onErrorCalledWith : Option JsVal
  errorTransition : Bool
  onLoadFires : Bool

/-- The failure handler installed by `load()` in `loader-hoc.tsx`: call the
`onError` hook when provided, and perform `setState({errorStatus})` unless
the hook returned exactly `false`.  Because the failure handler *handles*
the rejection (it does not rethrow), `load()`'s `promise` resolves, so the
chained `promise.then(this.props.onLoad)` fires `onLoad` when provided. -/
def handleFailure (onError : Option (JsVal → JsVal)) (hasOnLoad : Bool)
    (s : InnerState) (errorStatus : JsVal) : FailureEffects :=
  match onError with
  | some hook =>
      if !strictEq (hook errorStatus) (.bool false) then
        { state := { s with errorStatus := errorStatus }
          onErrorCalledWith := some errorStatus
          errorTransition := true
          onLoadFires := hasOnLoad }
      else
        { state := s
          onErrorCalledWith := some errorStatus
          errorTransition := false
          onLoadFires := hasOnLoad }
  | none =>
      { state := { s with errorStatus := errorStatus }
        onErrorCalledWith := none
        errorTransition := true
        onLoadFires := hasOnLoad }

/-! ## `deepCompare` and `getObjKeys` (`helpers.ts`)

`deepCompare` recurses through property lookups rather than structurally,
so it is defined with fuel (`jsSize i1` bounds the recursion depth, which
only ever descends into subvalues of the first argument); the fuel is
erased by `deepCompareF_eq_deepCompare` below. -/

/-- Function `getObjKeys` from `helpers.ts`: `Object.keys(obj)`, plus `'name'` when
`obj instanceof File`, plus `'size','type'` when `obj instanceof Blob`
(a `File` is also a `Blob`). -/
def getObjKeys (o : JsVal) : List String :=
  ownKeys o ++ (specialProps o).map Prod.fst

/-- Fuelled body of `deepCompare` from `helpers.ts`:
two numbers that are both NaN compare equal; if the operands are not both
objects, or either is null, compare with `===`; otherwise compare key-list
lengths and then, for each key of the first operand, recurse on
object-valued properties and `===`-compare the rest. -/
def deepCompareF : Nat → JsVal → JsVal → Bool
  | 0, _, _ => false
  | fuel + 1, i1, i2 =>
    if typeofIsNumber i1 && typeofIsNumber i2 && jsIsNaN i1 && jsIsNaN i2 then true
    else if !(typeofIsObject i1 && typeofIsObject i2) || isNullJs i1 || isNullJs i2 then
      strictEq i1 i2
    else
      let keys := getObjKeys i1
      (keys.length == (getObjKeys i2).length) &&
      keys.all (fun prop =>
        let v1 := getProp i1 prop
        if typeofIsObject v1 && !isNullJs v1 then deepCompareF fuel v1 (getProp i2 prop)
        else strictEq v1 (getProp i2 prop))

/-- Function `deepCompare` from `helpers.ts`. -/
def deepCompare (i1 i2 : JsVal) : Bool := deepCompareF (jsSize i1) i1 i2

/-- Spec-side definition, following the words of claim C7 (not the code):
two values are structurally equal iff NaN equals NaN (at every depth),
non-object or null values are equal by value, and objects are equal iff
they have the same own-enumerable key set (file-like objects contributing
their name/size/type metadata keys) and recursively equal values at every
key. -/
def specStructEqF : Nat → JsVal → JsVal → Bool
  | 0, _, _ => false
  | fuel + 1, i1, i2 =>
    if jsIsNaN i1 && jsIsNaN i2 then true
    else if !(typeofIsObject i1 && typeofIsObject i2) || isNullJs i1 || isNullJs i2 then
      strictEq i1 i2
    else
      let k1 := getObjKeys i1
      let k2 := getObjKeys i2
      (k1.all (fun k => decide (k ∈ k2)) && k2.all (fun k => decide (k ∈ k1))) &&
      k1.all (fun k => specStructEqF fuel (getProp i1 k) (getProp i2 k))

/-- Spec-side structural equality of claim C7. -/
def specStructEq (i1 i2 : JsVal) : Bool := specStructEqF (jsSize i1) i1 i2

/-- Well-formed JavaScript values for the corrected claim C7: no `NaN`
anywhere, no `undefined`-valued properties, and no duplicate own keys
(JavaScript objects cannot hold duplicate keys; `undefined`-valued
properties and nested `NaN`s are exactly the values on which `deepCompare`
and structural equality part ways). -/
inductive WfJs : JsVal → Prop
  | null : WfJs .null
  | bool (b : Bool) : WfJs (.bool b)
  | num (n : Int) : WfJs (.num n)
  | str (s : String) : WfJs (.str s)
  | file (n : String) (sz : Int) (t : String) : WfJs (.file n sz t)
  | blob (sz : Int) (t : String) : WfJs (.blob sz t)
  | obj (fs : List (String × JsVal)) :
      (fs.map Prod.fst).Nodup →
      (∀ kv ∈ fs, WfJs kv.2) →
      WfJs (.obj fs)
  | arr (xs : List JsVal) (ps : List (String × JsVal)) :
      (getObjKeys (.arr xs ps)).Nodup →
      (∀ x ∈ xs, WfJs x) →
      (∀ kv ∈ ps, WfJs kv.2) →
      WfJs (.arr xs ps)

/-! ### Lemmas about lookups, keys and sizes -/

theorem listAllCongr {α : Type} (l : List α) (f g : α → Bool)
    (h : ∀ a ∈ l, f a = g a) : l.all f = l.all g := by
  induction l with
  | nil => rfl
  | cons a l ih =>
      simp only [List.all_cons, h a (by simp)]
      rw [ih (fun x hx => h x (by simp [hx]))]

theorem lookupField_mem {l : List (String × JsVal)} {k : String} {v : JsVal}
    (h : lookupField l k = some v) : (k, v) ∈ l := by
  induction l with
  | nil => simp [lookupField] at h
  | cons kv rest ih =>
      obtain ⟨k0, v0⟩ := kv
      by_cases hk : k0 = k
      · simp [lookupField, hk] at h
        simp [hk, h]
      · simp [lookupField, hk] at h
        exact List.mem_cons_of_mem _ (ih h)

theorem lookupField_eq_none_of_not_mem {l : List (String × JsVal)} {k : String}
    (h : k ∉ l.map Prod.fst) : lookupField l k = none := by
  induction l with
  | nil => rfl
  | cons kv rest ih =>
      obtain ⟨k0, v0⟩ := kv
      simp only [List.map_cons, List.mem_cons] at h
      push_neg at h
      have hk : ¬(k0 = k) := fun hc => h.1 hc.symm
      simp [lookupField, hk, ih h.2]

theorem lookupField_isSome_of_mem {l : List (String × JsVal)} {k : String}
    (h : k ∈ l.map Prod.fst) : ∃ v, lookupField l k = some v := by
  induction l with
  | nil => simp at h
  | cons kv rest ih =>
      obtain ⟨k0, v0⟩ := kv
      by_cases hk : k0 = k
      · exact ⟨v0, by simp [lookupField, hk]⟩
      · simp only [List.map_cons, List.mem_cons] at h
        rcases h with h | h
        · exact absurd h.symm hk
        · obtain ⟨v, hv⟩ := ih h
          exact ⟨v, by simp [lookupField, hk, hv]⟩

theorem lookupField_eq_some_of_mem_nodup {l : List (String × JsVal)} {k : String} {v : JsVal}
    (hnd : (l.map Prod.fst).Nodup) (h : (k, v) ∈ l) : lookupField l k = some v := by
  induction l with
  | nil => simp at h
  | cons kv rest ih =>
      obtain ⟨k0, v0⟩ := kv
      simp only [List.map_cons, List.nodup_cons] at hnd
      rcases List.mem_cons.mp h with h | h
      · injection h with hk hv
        subst hk
        subst hv
        simp [lookupField]
      · have hk : ¬(k0 = k) := by
          intro he
          exact hnd.1 (by rw [he]; exact List.mem_map.mpr ⟨(k, v), h, rfl⟩)
        simp [lookupField, hk, ih hnd.2 h]

theorem mem_of_mem_indexFields {xs : List JsVal} {i : Nat} {k : String} {v : JsVal}
    (h : (k, v) ∈ indexFields xs i) : v ∈ xs := by
  induction xs generalizing i with
  | nil => simp [indexFields] at h
  | cons x rest ih =>
      simp only [indexFields, List.mem_cons] at h
      rcases h with h | h
      · injection h with hk hv
        simp [hv]
      · exact List.mem_cons_of_mem _ (ih h)

theorem one_le_jsSize (v : JsVal) : 1 ≤ jsSize v := by
  cases v <;> simp [jsSize] <;> omega

theorem jsSize_lt_of_mem_list {v : JsVal} {xs : List JsVal} (h : v ∈ xs) :
    jsSize v < 1 + jsSizeList xs := by
  induction xs with
  | nil => simp at h
  | cons x rest ih =>
      rcases List.mem_cons.mp h with h | h
      · simp [jsSizeList, h]
        omega
      · have := ih h
        simp only [jsSizeList]
        omega

theorem jsSize_lt_of_mem_fields {k : String} {v : JsVal} {fs : List (String × JsVal)}
    (h : (k, v) ∈ fs) : jsSize v < 1 + jsSizeFields fs := by
  induction fs with
  | nil => simp at h
  | cons kv rest ih =>
      rcases List.mem_cons.mp h with h | h
      · simp [jsSizeFields, ← h]
        omega
      · have := ih h
        simp only [jsSizeFields]
        omega

theorem getObjKeys_eq_map_fst (v : JsVal) :
    getObjKeys v = (ownFields v ++ specialProps v).map Prod.fst := by
  simp [getObjKeys, ownKeys, List.map_append]

theorem getProp_eq_undef_of_not_mem {v : JsVal} {k : String}
    (h : k ∉ getObjKeys v) : getProp v k = .undef := by
  rw [getObjKeys_eq_map_fst] at h
  simp [getProp, lookupField_eq_none_of_not_mem h]

theorem jsSize_getProp_lt_of_mem {v : JsVal} {k : String}
    (hobj : typeofIsObject v = true) (hnn : isNullJs v = false)
    (hk : k ∈ getObjKeys v) : jsSize (getProp v k) < jsSize v := by
  rw [getObjKeys_eq_map_fst] at hk
  obtain ⟨w, hw⟩ := lookupField_isSome_of_mem hk
  have hmem := lookupField_mem hw
  rw [getProp, hw, Option.getD_some]
  cases v with
  | null => simp [isNullJs] at hnn
  | undef => simp [typeofIsObject] at hobj
  | bool b => simp [typeofIsObject] at hobj
  | nan => simp [typeofIsObject] at hobj
  | num n => simp [typeofIsObject] at hobj
  | str s => simp [typeofIsObject] at hobj
  | obj fs =>
      simp only [ownFields, specialProps, List.append_nil] at hmem
      have := jsSize_lt_of_mem_fields hmem
      simp only [jsSize]
      omega
  | arr xs ps =>
      simp only [ownFields, specialProps, List.append_nil, List.mem_append] at hmem
      rcases hmem with hmem | hmem
      · have := jsSize_lt_of_mem_list (mem_of_mem_indexFields hmem)
        simp only [jsSize]
        omega
      · have := jsSize_lt_of_mem_fields hmem
        simp only [jsSize]
        omega
  | file n sz t =>
      simp only [ownFields, specialProps, List.nil_append, List.mem_cons,
        List.not_mem_nil, or_false] at hmem
      rcases hmem with h | h | h <;>
        (injection h with hk hw; subst hw; simp [jsSize])
  | blob sz t =>
      simp only [ownFields, specialProps, List.nil_append, List.mem_cons,
        List.not_mem_nil, or_false] at hmem
      rcases hmem with h | h <;>
        (injection h with hk hw; subst hw; simp [jsSize])

theorem deepCompareF_eq_deepCompare (m : Nat) :
    ∀ i1 i2 : JsVal, jsSize i1 ≤ m → deepCompareF m i1 i2 = deepCompare i1 i2 := by
  induction m using Nat.strong_induction_on with
  | _ m IH =>
    intro i1 i2 hm
    have h1 := one_le_jsSize i1
    obtain ⟨m0, rfl⟩ : ∃ m0, m = m0 + 1 := ⟨m - 1, by omega⟩
    rw [deepCompare]
    obtain ⟨k, hk⟩ : ∃ k, jsSize i1 = k + 1 := ⟨jsSize i1 - 1, by omega⟩
    rw [hk]
    simp only [deepCompareF]
    cases hC1 : (typeofIsNumber i1 && typeofIsNumber i2 && jsIsNaN i1 && jsIsNaN i2) with
    | true => simp [hC1]
    | false =>
      simp only [hC1, Bool.false_eq_true, if_false]
      cases hC2 : (!(typeofIsObject i1 && typeofIsObject i2) || isNullJs i1 || isNullJs i2) with
      | true => simp [hC2]
      | false =>
        simp only [hC2, Bool.false_eq_true, if_false]
        have hobs : typeofIsObject i1 = true ∧ typeofIsObject i2 = true ∧
            isNullJs i1 = false ∧ isNullJs i2 = false := by
          simp only [Bool.or_eq_false_iff, Bool.not_eq_false', Bool.and_eq_true] at hC2
          exact ⟨hC2.1.1.1, hC2.1.1.2, hC2.1.2, hC2.2⟩
        congr 1
        apply listAllCongr
        intro prop hprop
        dsimp only
        cases hv : (typeofIsObject (getProp i1 prop) && !isNullJs (getProp i1 prop)) with
        | false => simp [hv]
        | true =>
          simp only [hv, if_true]
          have hlt : jsSize (getProp i1 prop) < jsSize i1 :=
            jsSize_getProp_lt_of_mem hobs.1 hobs.2.2.1 hprop
          rw [IH m0 (by omega) _ _ (by omega), IH k (by omega) _ _ (by omega)]

theorem deepCompare_step (i1 i2 : JsVal) :
    deepCompare i1 i2 =
      (if typeofIsNumber i1 && typeofIsNumber i2 && jsIsNaN i1 && jsIsNaN i2 then true
      else if !(typeofIsObject i1 && typeofIsObject i2) || isNullJs i1 || isNullJs i2 then
        strictEq i1 i2
      else
        ((getObjKeys i1).length == (getObjKeys i2).length) &&
        (getObjKeys i1).all (fun prop =>
          if typeofIsObject (getProp i1 prop) && !isNullJs (getProp i1 prop) then
            deepCompare (getProp i1 prop) (getProp i2 prop)
          else strictEq (getProp i1 prop) (getProp i2 prop))) := by
  conv_lhs => rw [deepCompare]
  have h1 := one_le_jsSize i1
  obtain ⟨k, hk⟩ : ∃ k, jsSize i1 = k + 1 := ⟨jsSize i1 - 1, by omega⟩
  rw [hk]
  simp only [deepCompareF]
  cases hC1 : (typeofIsNumber i1 && typeofIsNumber i2 && jsIsNaN i1 && jsIsNaN i2) with
  | true => simp [hC1]
  | false =>
    simp only [hC1, Bool.false_eq_true, if_false]
    cases hC2 : (!(typeofIsObject i1 && typeofIsObject i2) || isNullJs i1 || isNullJs i2) with
    | true => simp [hC2]
    | false =>
      simp only [hC2, Bool.false_eq_true, if_false]
      have hobs : typeofIsObject i1 = true ∧ typeofIsObject i2 = true ∧
          isNullJs i1 = false ∧ isNullJs i2 = false := by
        simp only [Bool.or_eq_false_iff, Bool.not_eq_false', Bool.and_eq_true] at hC2
        exact ⟨hC2.1.1.1, hC2.1.1.2, hC2.1.2, hC2.2⟩
      congr 1
      apply listAllCongr
      intro prop hprop
      dsimp only
      cases hv : (typeofIsObject (getProp i1 prop) && !isNullJs (getProp i1 prop)) with
      | false => simp [hv]
      | true =>
        simp only [hv, if_true]
        have hlt : jsSize (getProp i1 prop) < jsSize i1 :=
          jsSize_getProp_lt_of_mem hobs.1 hobs.2.2.1 hprop
        rw [deepCompareF_eq_deepCompare k _ _ (by omega)]

theorem specStructEqF_eq_specStructEq (m : Nat) :
    ∀ i1 i2 : JsVal, jsSize i1 ≤ m → specStructEqF m i1 i2 = specStructEq i1 i2 := by
  induction m using Nat.strong_induction_on with
  | _ m IH =>
    intro i1 i2 hm
    have h1 := one_le_jsSize i1
    obtain ⟨m0, rfl⟩ : ∃ m0, m = m0 + 1 := ⟨m - 1, by omega⟩
    rw [specStructEq]
    obtain ⟨k, hk⟩ : ∃ k, jsSize i1 = k + 1 := ⟨jsSize i1 - 1, by omega⟩
    rw [hk]
    simp only [specStructEqF]
    cases hC1 : (jsIsNaN i1 && jsIsNaN i2) with
    | true => simp [hC1]
    | false =>
      simp only [hC1, Bool.false_eq_true, if_false]
      cases hC2 : (!(typeofIsObject i1 && typeofIsObject i2) || isNullJs i1 || isNullJs i2) with
      | true => simp [hC2]
      | false =>
        simp only [hC2, Bool.false_eq_true, if_false]
        have hobs : typeofIsObject i1 = true ∧ typeofIsObject i2 = true ∧
            isNullJs i1 = false ∧ isNullJs i2 = false := by
          simp only [Bool.or_eq_false_iff, Bool.not_eq_false', Bool.and_eq_true] at hC2
          exact ⟨hC2.1.1.1, hC2.1.1.2, hC2.1.2, hC2.2⟩
        congr 1
        apply listAllCongr
        intro key hkey
        dsimp only
        have hlt : jsSize (getProp i1 key) < jsSize i1 :=
          jsSize_getProp_lt_of_mem hobs.1 hobs.2.2.1 hkey
        rw [IH m0 (by omega) _ _ (by omega), IH k (by omega) _ _ (by omega)]

theorem specStructEq_step (i1 i2 : JsVal) :
    specStructEq i1 i2 =
      (if jsIsNaN i1 && jsIsNaN i2 then true
      else if !(typeofIsObject i1 && typeofIsObject i2) || isNullJs i1 || isNullJs i2 then
        strictEq i1 i2
      else
        ((getObjKeys i1).all (fun k => decide (k ∈ getObjKeys i2)) &&
         (getObjKeys i2).all (fun k => decide (k ∈ getObjKeys i1))) &&
        (getObjKeys i1).all (fun k => specStructEq (getProp i1 k) (getProp i2 k))) := by
  conv_lhs => rw [specStructEq]
  have h1 := one_le_jsSize i1
  obtain ⟨k0, hk0⟩ : ∃ k0, jsSize i1 = k0 + 1 := ⟨jsSize i1 - 1, by omega⟩
  rw [hk0]
  simp only [specStructEqF]
  cases hC1 : (jsIsNaN i1 && jsIsNaN i2) with
  | true => simp [hC1]
  | false =>
    simp only [hC1, Bool.false_eq_true, if_false]
    cases hC2 : (!(typeofIsObject i1 && typeofIsObject i2) || isNullJs i1 || isNullJs i2) with
    | true => simp [hC2]
    | false =>
      simp only [hC2, Bool.false_eq_true, if_false]
      have hobs : typeofIsObject i1 = true ∧ typeofIsObject i2 = true ∧
          isNullJs i1 = false ∧ isNullJs i2 = false := by
        simp only [Bool.or_eq_false_iff, Bool.not_eq_false', Bool.and_eq_true] at hC2
        exact ⟨hC2.1.1.1, hC2.1.1.2, hC2.1.2, hC2.2⟩
      congr 1
      apply listAllCongr
      intro key hkey
      dsimp only
      have hlt : jsSize (getProp i1 key) < jsSize i1 :=
        jsSize_getProp_lt_of_mem hobs.1 hobs.2.2.1 hkey
      rw [specStructEqF_eq_specStructEq k0 _ _ (by omega)]

/-! ### Well-formedness lemmas -/

theorem wfJs_jsIsNaN {v : JsVal} (h : WfJs v) : jsIsNaN v = false := by
  cases h <;> rfl

theorem wfJs_ne_undef {v : JsVal} (h : WfJs v) : v ≠ .undef := by
  cases h <;> simp

theorem wfJs_keys_nodup {v : JsVal} (h : WfJs v) (hobj : typeofIsObject v = true) :
    (getObjKeys v).Nodup := by
  cases h with
  | null => simp [getObjKeys, ownKeys, ownFields, specialProps]
  | bool b => simp [typeofIsObject] at hobj
  | num n => simp [typeofIsObject] at hobj
  | str s => simp [typeofIsObject] at hobj
  | file n sz t =>
      simp [getObjKeys, ownKeys, ownFields, specialProps]
  | blob sz t =>
      simp [getObjKeys, ownKeys, ownFields, specialProps]
  | obj fs hnd hwf =>
      simpa [getObjKeys, ownKeys, ownFields, specialProps] using hnd
  | arr xs ps hnd hxs hps => exact hnd

theorem wfJs_getProp_of_mem {v : JsVal} {k : String} (h : WfJs v)
    (hk : k ∈ getObjKeys v) : WfJs (getProp v k) := by
  rw [getObjKeys_eq_map_fst] at hk
  obtain ⟨w, hw⟩ := lookupField_isSome_of_mem hk
  have hmem := lookupField_mem hw
  rw [getProp, hw, Option.getD_some]
  cases h with
  | null => simp [ownFields, specialProps] at hmem
  | bool b => simp [ownFields, specialProps] at hmem
  | num n => simp [ownFields, specialProps] at hmem
  | str s =>
      simp only [ownFields, specialProps, List.append_nil] at hmem
      obtain ⟨c, hc, rfl⟩ := List.mem_map.mp (mem_of_mem_indexFields hmem)
      exact WfJs.str _
  | file n sz t =>
      simp only [ownFields, specialProps, List.nil_append, List.mem_cons,
        List.not_mem_nil, or_false] at hmem
      rcases hmem with hh | hh | hh
      · injection hh with h1 h2; subst h2; exact WfJs.str _
      · injection hh with h1 h2; subst h2; exact WfJs.num _
      · injection hh with h1 h2; subst h2; exact WfJs.str _
  | blob sz t =>
      simp only [ownFields, specialProps, List.nil_append, List.mem_cons,
        List.not_mem_nil, or_false] at hmem
      rcases hmem with hh | hh
      · injection hh with h1 h2; subst h2; exact WfJs.num _
      · injection hh with h1 h2; subst h2; exact WfJs.str _
  | obj fs hnd hwf =>
      simp only [ownFields, specialProps, List.append_nil] at hmem
      exact hwf _ hmem
  | arr xs ps hnd hxs hps =>
      simp only [ownFields, specialProps, List.append_nil, List.mem_append] at hmem
      rcases hmem with hh | hh
      · exact hxs _ (mem_of_mem_indexFields hh)
      · exact hps _ hh

theorem strictEq_undef_right {v : JsVal} (h : v ≠ .undef) : strictEq v .undef = false := by
  cases v <;> first | rfl | exact absurd rfl h

theorem deepCompare_undef_right {w : JsVal} (h : WfJs w) : deepCompare w .undef = false := by
  rw [deepCompare_step]
  simp only [show typeofIsNumber .undef = false from rfl, Bool.and_false, Bool.false_and,
    Bool.false_eq_true, if_false, show typeofIsObject .undef = false from rfl,
    Bool.not_false, Bool.true_or]
  rw [if_pos trivial]
  exact strictEq_undef_right (wfJs_ne_undef h)

theorem specStructEq_eq_strictEq_of_prim {v1 v2 : JsVal}
    (hnan : jsIsNaN v1 = false)
    (hv : (typeofIsObject v1 && !isNullJs v1) = false) :
    specStructEq v1 v2 = strictEq v1 v2 := by
  cases ho : typeofIsObject v1 with
  | false => simp [specStructEq_step, hnan, ho]
  | true =>
      have hnull : isNullJs v1 = true := by
        cases hn2 : isNullJs v1
        · rw [ho, hn2] at hv
          simp at hv
        · rfl
      simp [specStructEq_step, hnan, hnull]

/-- On well-formed values (no NaN, no undefined-valued or duplicate keys),
`deepCompare` coincides with the claim's structural equality. -/
theorem deepCompare_eq_specStructEq (n : Nat) :
    ∀ i1 i2 : JsVal, jsSize i1 ≤ n → WfJs i1 → WfJs i2 →
      deepCompare i1 i2 = specStructEq i1 i2 := by
  induction n using Nat.strong_induction_on with
  | _ n IH =>
    intro i1 i2 hn h1 h2
    have hs1 := one_le_jsSize i1
    rw [deepCompare_step, specStructEq_step]
    simp only [wfJs_jsIsNaN h1, Bool.and_false, Bool.false_and, Bool.false_eq_true, if_false]
    cases hC2 : (!(typeofIsObject i1 && typeofIsObject i2) || isNullJs i1 || isNullJs i2) with
    | true => simp [hC2]
    | false =>
      simp only [hC2, Bool.false_eq_true, if_false]
      have hobs : typeofIsObject i1 = true ∧ typeofIsObject i2 = true ∧
          isNullJs i1 = false ∧ isNullJs i2 = false := by
        simp only [Bool.or_eq_false_iff, Bool.not_eq_false', Bool.and_eq_true] at hC2
        exact ⟨hC2.1.1.1, hC2.1.1.2, hC2.1.2, hC2.2⟩
      have hnd1 := wfJs_keys_nodup h1 hobs.1
      have hnd2 := wfJs_keys_nodup h2 hobs.2.1
      by_cases hsub : ((getObjKeys i1).all (fun k => decide (k ∈ getObjKeys i2)) &&
          (getObjKeys i2).all (fun k => decide (k ∈ getObjKeys i1))) = true
      · have hsub' : (∀ k ∈ getObjKeys i1, k ∈ getObjKeys i2) ∧
            (∀ k ∈ getObjKeys i2, k ∈ getObjKeys i1) := by
          simpa [List.all_eq_true] using hsub
        have hfs : (getObjKeys i1).toFinset = (getObjKeys i2).toFinset := by
          apply Finset.Subset.antisymm
          · intro x hx
            simp only [List.mem_toFinset] at hx ⊢
            exact hsub'.1 x hx
          · intro x hx
            simp only [List.mem_toFinset] at hx ⊢
            exact hsub'.2 x hx
        have hlen : (getObjKeys i1).length = (getObjKeys i2).length := by
          rw [← List.toFinset_card_of_nodup hnd1, ← List.toFinset_card_of_nodup hnd2, hfs]
        rw [hsub]
        have hbeq : ((getObjKeys i1).length == (getObjKeys i2).length) = true := by
          simp [hlen]
        rw [hbeq]
        simp only [Bool.true_and]
        apply listAllCongr
        intro k hk
        dsimp only
        have wv1 := wfJs_getProp_of_mem h1 hk
        have wv2 := wfJs_getProp_of_mem h2 (hsub'.1 k hk)
        have hlt := jsSize_getProp_lt_of_mem hobs.1 hobs.2.2.1 hk
        cases hv : (typeofIsObject (getProp i1 k) && !isNullJs (getProp i1 k)) with
        | true =>
          simp only [hv, if_true]
          exact IH (n - 1) (by omega) _ _ (by omega) wv1 wv2
        | false =>
          simp only [hv, Bool.false_eq_true, if_false]
          exact (specStructEq_eq_strictEq_of_prim (wfJs_jsIsNaN wv1) hv).symm
      · have hsubf : ((getObjKeys i1).all (fun k => decide (k ∈ getObjKeys i2)) &&
            (getObjKeys i2).all (fun k => decide (k ∈ getObjKeys i1))) = false := by
          simpa using hsub
        rw [hsubf]
        simp only [Bool.false_and]
        by_cases hlen : (getObjKeys i1).length = (getObjKeys i2).length
        · have hex : ∃ k0 ∈ getObjKeys i1, k0 ∉ getObjKeys i2 := by
            by_contra hall
            push_neg at hall
            have hfs : (getObjKeys i1).toFinset ⊆ (getObjKeys i2).toFinset := by
              intro x hx
              simp only [List.mem_toFinset] at hx ⊢
              exact hall x hx
            have heq : (getObjKeys i1).toFinset = (getObjKeys i2).toFinset := by
              apply Finset.eq_of_subset_of_card_le hfs
              rw [List.toFinset_card_of_nodup hnd1, List.toFinset_card_of_nodup hnd2, hlen]
            apply hsub
            simp only [Bool.and_eq_true, List.all_eq_true, decide_eq_true_eq]
            refine ⟨fun k hk => hall k hk, fun k hk => ?_⟩
            have : k ∈ (getObjKeys i1).toFinset := by
              rw [heq]
              simpa using hk
            simpa using this
          obtain ⟨k0, hk0, hk0n⟩ := hex
          have hu : getProp i2 k0 = .undef := getProp_eq_undef_of_not_mem hk0n
          have wv1 := wfJs_getProp_of_mem h1 hk0
          have hallf : ((getObjKeys i1).all (fun prop =>
              if typeofIsObject (getProp i1 prop) && !isNullJs (getProp i1 prop) then
                deepCompare (getProp i1 prop) (getProp i2 prop)
              else strictEq (getProp i1 prop) (getProp i2 prop))) = false := by
            rw [List.all_eq_false]
            refine ⟨k0, hk0, ?_⟩
            cases hv : (typeofIsObject (getProp i1 k0) && !isNullJs (getProp i1 k0)) with
            | true =>
              simp only [hv, if_true, hu]
              simp [deepCompare_undef_right wv1]
            | false =>
              simp only [hv, Bool.false_eq_true, if_false, hu]
              simp [strictEq_undef_right (wfJs_ne_undef wv1)]
          rw [hallf]
          simp
        · have hbf : ((getObjKeys i1).length == (getObjKeys i2).length) = false := by
            simp [hlen]
          rw [hbf]
          simp

/-- Is the value a (non-null) JavaScript primitive that `JSON.parse` can
produce (number, string or boolean)? -/
def isPrimitiveJs : JsVal → Bool
  | .num _ => true
  | .str _ => true
  | .bool _ => true
  | _ => false

/-- Strict equality `v === false`, as a biconditional on the model. -/
theorem strictEq_bool_false_iff (v : JsVal) :
    strictEq v (.bool false) = true ↔ v = .bool false := by
  cases v <;> simp [strictEq]

theorem applyChain_cancel (ops : List ChainOp) :
    ∀ p : CancellablePromise, (applyChain p ops).cancel = p.cancel := by
  induction ops with
  | nil => intro p; rfl
  | cons op rest ih =>
      intro p
      cases op with
      | thenOp f g =>
          rw [applyChain, ih]
          rfl
      | catchOp g =>
          rw [applyChain, ih]
          rfl

/-- C1: for every CancellableFuture returned by a Transport call (with or
without `routeWith`) and every chain of `then`/`catch` compositions applied
to it, the chained future's `cancel()` forwards to the original abort
handle (the `xhr` of the underlying request), so cancelling any link of the
chain aborts the same underlying transport request as cancelling the
original future would. -/
theorem c1_cancel_propagates_through_chains :
    ∀ (xhrId : Nat) (outcome : PResult) (ops : List ChainOp),
      (applyChain (wrap xhrId outcome) ops).cancel = (wrap xhrId outcome).cancel ∧
      (applyChain (wrap xhrId outcome) ops).cancel = xhrId ∧
      ∀ (urlFor : JsVal → String) (h : History),
        (applyChain (wrapRouted xhrId urlFor h outcome).2 ops).cancel = xhrId := by
  intro xhrId outcome ops
  refine ⟨applyChain_cancel ops _, ?_, ?_⟩
  · rw [applyChain_cancel ops]
    rfl
  · intro urlFor h
    rw [applyChain_cancel ops]
    rfl

/-- C5: a request succeeding with an empty-array payload renders the
`'No results'` error view when `renderOnEmptyResult` is not configured, and
renders the wrapped display component with the empty array as data when it
is (`render` gates this on the stored post-success state). -/
theorem c5_empty_array_policy :
    ∀ (b : Bool) (s : InnerState),
      render { renderOnEmptyResult := b, serverAdapter := fun x => x }
        (applySuccess { renderOnEmptyResult := b, serverAdapter := fun x => x } s (.arr [] [])) =
      (if b then .displayView (.arr [] []) else .errorView (.str "No results")) := by
  intro b s
  cases b <;> simp [render, applySuccess, jsTruthy, isEmptyArrayJs]

/-- C6: on a request failure with an `onError` hook supplied, the hook is
invoked with the error message; the `setState({errorStatus})` error-display
transition happens iff the hook's return value is not exactly the boolean
`false`; and in either case the `onLoad` settle callback, when provided,
still fires (the failure handler handles the rejection, so the chained
`promise.then(onLoad)` resolves). -/
theorem c6_onError_hook :
    ∀ (hook : JsVal → JsVal) (hasOnLoad : Bool) (s : InnerState) (e : JsVal),
      (handleFailure (some hook) hasOnLoad s e).onErrorCalledWith = some e ∧
      ((handleFailure (some hook) hasOnLoad s e).errorTransition = true ↔ hook e ≠ .bool false) ∧
      (hook e ≠ .bool false →
        (handleFailure (some hook) hasOnLoad s e).state = { s with errorStatus := e }) ∧
      (hook e = .bool false → (handleFailure (some hook) hasOnLoad s e).state = s) ∧
      (hasOnLoad = true → (handleFailure (some hook) hasOnLoad s e).onLoadFires = true) := by
  intro hook hasOnLoad s e
  by_cases hb : hook e = .bool false
  · simp [handleFailure, hb, strictEq]
  · have hs : strictEq (hook e) (.bool false) = false := by
      cases hx : strictEq (hook e) (.bool false)
      · rfl
      · exact absurd ((strictEq_bool_false_iff _).mp hx) hb
    simp [handleFailure, hs, hb]

/-- Witness for C6 at concrete inputs: a hook returning `true` lets the
error transition happen, a hook returning `false` suppresses it, and the
settle callback fires in both cases. -/
theorem c6_onError_hook_witness :
    (handleFailure (some (fun _ => .bool true)) true ⟨.undef, .undef⟩ (.str "boom")).onErrorCalledWith
      = some (.str "boom") ∧
    (handleFailure (some (fun _ => .bool true)) true ⟨.undef, .undef⟩ (.str "boom")).state
      = { data := .undef, errorStatus := .str "boom" } ∧
    (handleFailure (some (fun _ => .bool false)) true ⟨.undef, .undef⟩ (.str "boom")).state
      = ⟨.undef, .undef⟩ ∧
    (handleFailure (some (fun _ => .bool false)) true ⟨.undef, .undef⟩ (.str "boom")).onLoadFires
      = true := by
  have h1 := c6_onError_hook (fun _ => .bool true) true ⟨.undef, .undef⟩ (.str "boom")
  have h2 := c6_onError_hook (fun _ => .bool false) true ⟨.undef, .undef⟩ (.str "boom")
  exact ⟨h1.1, h1.2.2.1 (by simp), h2.2.2.2.1 rfl, h2.2.2.2.2 rfl⟩

/-- C7 counterexample: the claim says NaN is treated as equal to NaN *at
every depth*, but `deepCompare` only special-cases NaN when the two NaNs
are the arguments themselves; a NaN nested one level down is compared with
`===` (NaN !== NaN), so `deepCompare {a: NaN} {a: NaN}` is `false` while
the claim's structural equality makes it `true`. -/
theorem c7_counterexample :
    deepCompare (.obj [("a", .nan)]) (.obj [("a", .nan)]) = false ∧
    specStructEq (.obj [("a", .nan)]) (.obj [("a", .nan)]) = true := by
  exact ⟨rfl, rfl⟩

/-- C7 (amended): for QueryKeys containing no NaN, no `undefined`-valued
properties and no duplicate keys, `deepCompare` returns true iff the two
values are structurally equal (objects by recursively equal own-enumerable
keys, file-like objects by name/size/type metadata); NaN compares equal to
NaN when the two NaNs are the compared values themselves (not when nested
inside objects, see the counterexample). -/
theorem c7_deepCompare_structural_amended :
    (∀ i1 i2 : JsVal, WfJs i1 → WfJs i2 →
      (deepCompare i1 i2 = true ↔ specStructEq i1 i2 = true)) ∧
    deepCompare .nan .nan = true := by
  constructor
  · intro i1 i2 h1 h2
    rw [deepCompare_eq_specStructEq (jsSize i1) i1 i2 le_rfl h1 h2]
  · rfl

/-- Witness for C7 at concrete well-formed values. -/
theorem c7_deepCompare_structural_amended_witness :
    deepCompare (.obj [("a", .num 1)]) (.obj [("a", .num 1)]) = true ∧
    specStructEq (.obj [("a", .num 1)]) (.obj [("a", .num 1)]) = true := by
  have hw : WfJs (.obj [("a", .num 1)]) := by
    refine WfJs.obj _ (by simp) ?_
    intro kv hkv
    simp only [List.mem_singleton] at hkv
    subst hkv
    exact WfJs.num 1
  have hd : deepCompare (.obj [("a", .num 1)]) (.obj [("a", .num 1)]) = true := rfl
  exact ⟨hd, (c7_deepCompare_structural_amended.1 _ _ hw hw).mp hd⟩

/-- C8: every GET request sends no body on the wire (the XHR layer drops
the body argument for GET), and the query parameters appear only serialized
into the URL. -/
theorem c8_get_no_wire_body :
    ∀ (url : String) (data : JsVal),
      (JsonApi.get url data).wireBody = none ∧
      (JsonApi.get url data).method = "GET" ∧
      (JsonApi.get url data).url =
        (if jsTruthy data then url ++ "?" ++ JsonApi.serializeUri data else url) := by
  intro url data
  exact ⟨rfl, rfl, rfl⟩

/-- C9 counterexample: with `routeWith`, a transport failure is *not*
observable as a rejection by a caller-attached catch handler.  The returned
future is `promise.then(successHandler, errorHandler)`; the error handler
handles the rejection and returns `undefined`, so the future resolves with
`undefined`, and a subsequently attached catch handler is never invoked
(the result stays `resolved undefined` instead of the handler's output). -/
theorem c9_counterexample :
    (wrapRouted 7 (fun _ => "/x") ⟨⟨"/home", .undef⟩, []⟩ (.rejected (.str "boom"))).2.base
      = PResult.resolved .undef ∧
    ((wrapRouted 7 (fun _ => "/x") ⟨⟨"/home", .undef⟩, []⟩ (.rejected (.str "boom"))).2.catchFn
        (some (fun e => .resolved e))).base = PResult.resolved .undef := by
  exact ⟨rfl, rfl⟩

/-- C9 (amended): with `routeWith`, a transport failure is absorbed by the
router's error handler: the current navigation entry's state is replaced
with `{errorMessage: e}`, the returned future resolves with `undefined`
(so caller `then` handlers observe `undefined` and caller `catch` handlers
never fire), and cancellability is still preserved. -/
theorem c9_routed_failure_absorbed :
    ∀ (xhrId : Nat) (urlFor : JsVal → String) (h : History) (e : JsVal),
      (wrapRouted xhrId urlFor h (.rejected e)).2.base = PResult.resolved .undef ∧
      (wrapRouted xhrId urlFor h (.rejected e)).1 =
        h.replace { pathname := h.current.pathname, state := .obj [("errorMessage", e)] } ∧
      (wrapRouted xhrId urlFor h (.rejected e)).2.cancel = xhrId ∧
      ∀ g : JsVal → PResult,
        ((wrapRouted xhrId urlFor h (.rejected e)).2.catchFn (some g)).base
          = PResult.resolved .undef := by
  intro xhrId urlFor h e
  exact ⟨rfl, rfl, rfl, fun g => rfl⟩

/-- C10 (implicit): a request succeeding with a falsy post-adapter payload
(null, 0, empty string, false, NaN — or undefined) never renders the
display component: `render` gates on the truthiness of the stored data, so
the component keeps rendering the loading placeholder, or the error
placeholder if an `errorStatus` was previously recorded. -/
theorem c10_falsy_data_never_displays :
    ∀ (opts : LoaderOptions) (s : InnerState) (response : JsVal),
      jsTruthy (opts.serverAdapter response) = false →
      (∀ d, render opts (applySuccess opts s response) ≠ .displayView d) ∧
      render opts (applySuccess opts s response) =
        (if jsTruthy s.errorStatus then .errorView s.errorStatus else .loaderView) := by
  intro opts s response hf
  constructor
  · intro d
    simp only [render, applySuccess, hf, Bool.false_eq_true, if_false]
    split <;> simp
  · simp [render, applySuccess, hf]

/-- Witness for C10 at a concrete falsy payload (`null`). -/
theorem c10_falsy_data_never_displays_witness :
    render ⟨false, fun x => x⟩ (applySuccess ⟨false, fun x => x⟩ ⟨.undef, .undef⟩ .null)
      = .loaderView ∧
    render ⟨false, fun x => x⟩ (applySuccess ⟨false, fun x => x⟩ ⟨.undef, .undef⟩ .null)
      ≠ .displayView .null := by
  have h := c10_falsy_data_never_displays ⟨false, fun x => x⟩ ⟨.undef, .undef⟩ .null rfl
  exact ⟨by simpa using h.2, h.1 .null⟩

theorem serializeUri_params (fs : List (String × JsVal)) (acc : List String) :
    fs.foldl (fun acc kv =>
      match kv.2 with
      | .undef => acc
      | .null => acc
      | v => acc ++ [kv.1 ++ "=" ++ encodeURIComponent (jsToString v)]) acc
    = acc ++ (fs.filter (fun kv =>
        match kv.2 with
        | .null => false
        | .undef => false
        | _ => true)).map
        (fun kv => kv.1 ++ "=" ++ encodeURIComponent (jsToString kv.2)) := by
  induction fs generalizing acc with
  | nil => simp
  | cons kv rest ih =>
      obtain ⟨k, v⟩ := kv
      cases v <;> simp [List.foldl_cons, List.filter_cons, ih]

/-- C4: a GET query string holds exactly the `key=value` pairs for keys
whose value is neither null nor undefined, values URL-encoded and pairs
joined by `&`; in particular the object `{a:1, b:null, c:undefined}` yields
the URL suffix `?a=1` exactly, with no trailing `&`. -/
theorem c4_get_query_string :
    (∀ url : String,
      (JsonApi.get url (.obj [("a", .num 1), ("b", .null), ("c", .undef)])).url
        = url ++ "?a=1") ∧
    (∀ fs : List (String × JsVal),
      JsonApi.serializeUri (.obj fs) = String.intercalate "&"
        ((fs.filter (fun kv =>
            match kv.2 with
            | .null => false
            | .undef => false
            | _ => true)).map
          (fun kv => kv.1 ++ "=" ++ encodeURIComponent (jsToString kv.2)))) := by
  constructor
  · intro url
    show (if jsTruthy (.obj [("a", .num 1), ("b", .null), ("c", .undef)]) = true then
        url ++ "?" ++ JsonApi.serializeUri (.obj [("a", .num 1), ("b", .null), ("c", .undef)])
      else url) = url ++ "?a=1"
    have hq : JsonApi.serializeUri (.obj [("a", .num 1), ("b", .null), ("c", .undef)]) = "a=1" := by
      rfl
    rw [if_pos (show jsTruthy (JsVal.obj [("a", JsVal.num 1), ("b", JsVal.null), ("c", JsVal.undef)])
          = true from rfl), hq]
    have happ : ("?" : String) ++ "a=1" = "?a=1" := rfl
    rw [String.append_assoc, happ]
  · intro fs
    show String.intercalate "&" ((ownFields (.obj fs)).foldl _ []) = _
    rw [show ownFields (.obj fs) = fs from rfl, serializeUri_params fs []]
    rw [List.nil_append]

/-- C2: a request completing with a status outside [200,300) (and nonzero,
so the `onload` failure path runs) rejects with: the `error` field's string
when the body parses to an object carrying one (substituting
"(no message provided)" for the empty string); the whole parsed object when
it lacks `error`; and the raw body text — or the fixed fallback string for
an empty body — when parsing fails. -/
theorem c2_error_rejection_normalization :
    ∀ (status : Nat) (loc : Option String) (body : String),
      ¬(200 ≤ status ∧ status < 300) → status ≠ 0 →
      (∀ fs s, jsonParse body = some (.obj fs) → lookupField fs "error" = some (.str s) →
        JsonApi.handleLoad status loc body =
          .failure (.str (if s = "" then "(no message provided)" else s))) ∧
      (∀ fs, jsonParse body = some (.obj fs) → lookupField fs "error" = none →
        JsonApi.handleLoad status loc body = .failure (.obj fs)) ∧
      (jsonParse body = none →
        JsonApi.handleLoad status loc body =
          .failure (if body = "" then .str "Server returned with an unexpected response"
                    else .str body)) := by
  intro status loc body hst h0
  have hload : JsonApi.handleLoad status loc body = .failure (JsonApi.doError body) := by
    rw [JsonApi.handleLoad.eq_def, if_neg hst]
  refine ⟨?_, ?_, ?_⟩
  · intro fs s hp hlk
    rw [hload]
    have hget : getProp (.obj fs) "error" = .str s := by
      simp [getProp, ownFields, specialProps, hlk]
    rw [JsonApi.doError.eq_def, hp]
    by_cases hs : s = ""
    · subst hs
      simp [hget, strictEq, jsTruthy]
    · simp [hget, strictEq, hs, jsTruthy]
  · intro fs hp hlk
    rw [hload]
    have hget : getProp (.obj fs) "error" = .undef := by
      simp [getProp, ownFields, specialProps, hlk]
    rw [JsonApi.doError.eq_def, hp]
    simp [hget, strictEq, jsTruthy]
  · intro hp
    rw [hload, JsonApi.doError.eq_def, hp, JsonApi.rawOrFallback.eq_def]

/-- Witness for C2, checking the four concrete examples from the spec. -/
theorem c2_error_rejection_normalization_witness :
    JsonApi.handleLoad 404 none "\x7b\"error\":\"bad id\"\x7d" = .failure (.str "bad id") ∧
    JsonApi.handleLoad 404 none "\x7b\"error\":\"\"\x7d"
      = .failure (.str "(no message provided)") ∧
    JsonApi.handleLoad 500 none "oops" = .failure (.str "oops") ∧
    JsonApi.handleLoad 500 none ""
      = .failure (.str "Server returned with an unexpected response") := by
  have h1 := c2_error_rejection_normalization 404 none "\x7b\"error\":\"bad id\"\x7d"
    (by omega) (by omega)
  have h2 := c2_error_rejection_normalization 404 none "\x7b\"error\":\"\"\x7d"
    (by omega) (by omega)
  have h3 := c2_error_rejection_normalization 500 none "oops" (by omega) (by omega)
  have h4 := c2_error_rejection_normalization 500 none "" (by omega) (by omega)
  refine ⟨?_, ?_, ?_, ?_⟩
  · have := h1.1 [("error", .str "bad id")] "bad id" rfl rfl
    simpa using this
  · have := h2.1 [("error", .str "")] "" rfl rfl
    simpa using this
  · have := h3.2.2 rfl
    simpa using this
  · have := h4.2.2 rfl
    simpa using this

/-- C3 counterexample: for a 2xx response with body `"null"` and a Location
header, the claim says the attachment is skipped and the parsed body
(`null`) is resolved as-is; in the code `parsed.redirectTo = L` throws a
`TypeError` on `null` (in any JavaScript mode), the catch branch runs
`parsed = response`, and the future resolves with the raw TEXT `"null"`
(a string), not with `null`. -/
theorem c3_counterexample :
    JsonApi.handleLoad 200 (some "/next") "null" = .success (.str "null") ∧
    jsonParse "null" = some .null ∧
    JsVal.str "null" ≠ JsVal.null := by
  refine ⟨rfl, rfl, by simp⟩

/-- C3 (amended): a request completing with a 2xx status always resolves
(never rejects) with the JSON-parsed body, or the raw text when parsing
fails.  When a (truthy) Location header `L` is present: a parsed object or
array gets `redirectTo = L` attached; a parsed non-null primitive is
returned as-is (the attachment is a sloppy-mode no-op); a parsed `null`
makes the attachment throw, and the raw body text is resolved instead. -/
theorem c3_success_normalization_amended :
    ∀ (status : Nat) (loc : Option String) (body : String),
      200 ≤ status → status < 300 →
      (∃ v, JsonApi.handleLoad status loc body = .success v) ∧
      (jsonParse body = none → JsonApi.handleLoad status loc body = .success (.str body)) ∧
      (∀ v, jsonParse body = some v → (loc = none ∨ loc = some "") →
        JsonApi.handleLoad status loc body = .success v) ∧
      (∀ fs L, jsonParse body = some (.obj fs) → loc = some L → L ≠ "" →
        JsonApi.handleLoad status loc body
          = .success (.obj (setField fs "redirectTo" (.str L)))) ∧
      (∀ xs L, jsonParse body = some (.arr xs []) → loc = some L → L ≠ "" →
        JsonApi.handleLoad status loc body
          = .success (.arr xs [("redirectTo", .str L)])) ∧
      (∀ v L, jsonParse body = some v → isPrimitiveJs v = true → loc = some L → L ≠ "" →
        JsonApi.handleLoad status loc body = .success v) ∧
      (∀ L, jsonParse body = some .null → loc = some L → L ≠ "" →
        JsonApi.handleLoad status loc body = .success (.str body)) := by
  intro status loc body h1 h2
  have hpos : 200 ≤ status ∧ status < 300 := ⟨h1, h2⟩
  have hL : JsonApi.handleLoad status loc body =
      (match loc with
        | some L =>
            if L = "" then JsonApi.Outcome.success (JsonApi.doSuccess body none)
            else .success (JsonApi.doSuccess body (some L))
        | none => .success (JsonApi.doSuccess body none)) := by
    rw [JsonApi.handleLoad.eq_def, if_pos hpos]
  refine ⟨?_, ?_, ?_, ?_, ?_, ?_, ?_⟩
  · rcases loc with _ | L
    · exact ⟨_, by rw [hL]⟩
    · by_cases hE : L = ""
      · exact ⟨JsonApi.doSuccess body none, by rw [hL]; simp [hE]⟩
      · exact ⟨JsonApi.doSuccess body (some L), by rw [hL]; simp [hE]⟩
  · intro hp
    have hds : ∀ ro, JsonApi.doSuccess body ro = .str body := by
      intro ro
      rw [JsonApi.doSuccess.eq_def, hp]
    rcases loc with _ | L
    · rw [hL, hds]
    · by_cases hE : L = "" <;> rw [hL] <;> simp [hE, hds]
  · intro v hp hloc
    have hds : JsonApi.doSuccess body none = v := by
      rw [JsonApi.doSuccess.eq_def, hp]
    rcases hloc with rfl | rfl
    · rw [hL, hds]
    · rw [hL]
      simp [hds]
  · intro fs L hp hloc hE
    subst hloc
    rw [hL]
    simp only [hE, if_false]
    rw [JsonApi.doSuccess.eq_def, hp]
    simp [hE, setPropJs]
  · intro xs L hp hloc hE
    subst hloc
    rw [hL]
    simp only [hE, if_false]
    rw [JsonApi.doSuccess.eq_def, hp]
    simp [hE, setPropJs, setField]
  · intro v L hp hprim hloc hE
    subst hloc
    rw [hL]
    simp only [hE, if_false]
    rw [JsonApi.doSuccess.eq_def, hp]
    cases v <;> simp [isPrimitiveJs] at hprim <;> simp [hE, setPropJs]
  · intro L hp hloc hE
    subst hloc
    rw [hL]
    simp only [hE, if_false]
    rw [JsonApi.doSuccess.eq_def, hp]
    simp [hE, setPropJs]

/-- Witness for C3 at concrete inputs: an object body with a Location
header gets `redirectTo` attached; without a header the parsed body is
resolved as-is; a primitive body with a header is resolved as-is. -/
theorem c3_success_normalization_amended_witness :
    JsonApi.handleLoad 200 (some "/next") "\x7b\"a\":1\x7d"
      = .success (.obj [("a", .num 1), ("redirectTo", .str "/next")]) ∧
    JsonApi.handleLoad 204 none "\x7b\"a\":1\x7d" = .success (.obj [("a", .num 1)]) ∧
    JsonApi.handleLoad 200 (some "/next") "5" = .success (.num 5) := by
  have h1 := c3_success_normalization_amended 200 (some "/next") "\x7b\"a\":1\x7d"
    (by omega) (by omega)
  have h2 := c3_success_normalization_amended 204 none "\x7b\"a\":1\x7d" (by omega) (by omega)
  have h3 := c3_success_normalization_amended 200 (some "/next") "5" (by omega) (by omega)
  refine ⟨?_, ?_, ?_⟩
  · have := h1.2.2.2.1 [("a", .num 1)] "/next" rfl rfl (by simp)
    simpa [setField] using this
  · exact h2.2.2.1 _ rfl (Or.inl rfl)
  · exact h3.2.2.2.2.2.1 (.num 5) "/next" rfl rfl rfl (by simp)
